import Mathlib

/-!
Verification of the TrimURL URL-shortening service (Go).

Shallow embedding of the core registry (`url_service.go`, shown in
`handlers.go` lines 228-440 of the concatenated source), the data model
(`models.go`), and the fragment of Go's `net/url.Parse` that `validateURL`
relies on.

Conventions of the embedding:
* Go `time.Time` is modelled as `Int` (nanoseconds); `t1.After(t2)` is
  `t1 > t2`; `time.Duration` is a signed 64-bit quantity, so the product
  `time.Duration(validity) * time.Minute` is taken modulo 2^64 and
  reinterpreted as a signed integer (`int64Wrap`).
* The Go map `map[string]*ShortURL` is an association list with unique
  keys; map assignment is `regInsert` (overwrite), lookup is `regFind`.
* Go `error` results are modelled with `Option`/`Except`; each inductive
  error constructor corresponds to one `fmt.Errorf` message in the source
  (see `resolveErrMessage` etc. below).
* `crypto/rand.Read` is modelled by an explicit stream of 4-byte draws
  passed to the operations that generate shortcodes; the unbounded retry
  loop of `generateShortCode` becomes structural recursion on that stream,
  returning `none` when the stream is exhausted (the Go loop would keep
  drawing).
-/

namespace TrimURL

/-- Time in nanoseconds, as in Go's `time` package. -/
abbrev Time := Int

/-- `time.Minute` in nanoseconds. -/
def minuteNs : Int := 60000000000

/-- Reinterpret an integer as a signed 64-bit value, wrapping modulo 2^64.
Go computes `time.Duration(validity) * time.Minute` in the signed 64-bit
`Duration` type, which wraps on overflow. -/
def int64Wrap (n : Int) : Int :=
  ((n + 2 ^ 63) % 2 ^ 64) - 2 ^ 63

/-- The duration `time.Duration(validity) * time.Minute` (`url_service.go`,
`CreateShortURL`): a wrapping 64-bit signed multiplication. -/
def validityDuration (validity : Int) : Int :=
  int64Wrap (validity * minuteNs)

/-- `Click` from `models.go`. -/
structure Click where
  timestamp : Time
  source : String
  location : String
  deriving Repr, DecidableEq

/-- `ShortURL` from `models.go`. `ClickCount` is a Go `int`. -/
structure ShortURL where
  shortCode : String
  originalURL : String
  createdAt : Time
  expiresAt : Time
  clickCount : Int
  clickHistory : List Click
  deriving Repr, DecidableEq

/-- `ShortURLStats` from `models.go`. -/
structure ShortURLStats where
  totalClicks : Int
  createdAt : Time
  expiresAt : Time
  clicks : List Click
  deriving Repr, DecidableEq

/-- `CreateShortURLRequest` from `models.go`.  Absent JSON fields decode to
the Go zero values: `validity = 0`, `shortCode = ""`. -/
structure CreateShortURLRequest where
  url : String
  validity : Int
  shortCode : String
  deriving Repr, DecidableEq

/-- `CreateShortURLResponse` from `models.go`; the `Expiry` field is kept as
the `time.Time` value that the source formats with RFC3339. -/
structure CreateShortURLResponse where
  shortLink : String
  expiry : Time
  deriving Repr, DecidableEq

/-- The service's `urls` map `map[string]*ShortURL`, as an association list
with unique keys (writes go through `regInsert`). -/
abbrev Registry := List (String × ShortURL)

/-- Map lookup `s.urls[shortCode]`. -/
def regFind (reg : Registry) (k : String) : Option ShortURL :=
  match reg with
  | [] => none
  | (k', v) :: rest => if k' = k then some v else regFind rest k

/-- Remove every binding of key `k` (helper for overwrite semantics). -/
def regErase (reg : Registry) (k : String) : Registry :=
  match reg with
  | [] => []
  | (k', v) :: rest => if k' = k then regErase rest k else (k', v) :: regErase rest k

/-- Map assignment `s.urls[shortCode] = shortURL`: a Go map holds one value
per key, so assignment overwrites. -/
def regInsert (reg : Registry) (k : String) (v : ShortURL) : Registry :=
  (k, v) :: regErase reg k

/-- `shortCodeExists` (`url_service.go` lines 434-440): a read-locked
membership test.  Note that in the source this acquires and releases the
read lock by itself; it is not part of the critical section of the later
insert. -/
def shortCodeExists (reg : Registry) (code : String) : Bool :=
  (regFind reg code).isSome

/- ### Shortcode validation (`validateShortCode`, lines 405-418) -/

/-- Errors of `validateShortCode`, one per `fmt.Errorf` in the source. -/
inductive CodeErr where
  | badLength
  | nonAlphanumeric
  deriving Repr, DecidableEq

/-- The Go error message of each `CodeErr`. -/
def codeErrMessage : CodeErr → String
  | .badLength => "shortcode must be 4-20 characters"
  | .nonAlphanumeric => "shortcode must be alphanumeric"

/-- The rune test of the `for _, char := range shortCode` loop. -/
def isAlphaNumChar (c : Char) : Bool :=
  (97 ≤ c.toNat && c.toNat ≤ 122) || (65 ≤ c.toNat && c.toNat ≤ 90)
    || (48 ≤ c.toNat && c.toNat ≤ 57)

/-- `validateShortCode` (lines 405-418).  Go's `len` counts bytes
(`utf8ByteSize`); the character loop ranges over runes (`String.data`).
`none` is the `nil` error. -/
def validateShortCode (code : String) : Option CodeErr :=
  if code.utf8ByteSize < 4 || 20 < code.utf8ByteSize then some .badLength
  else if code.data.all isAlphaNumChar then none
  else some .nonAlphanumeric

/- ### Shortcode generation (`generateShortCode`, lines 421-431) -/

/-- Lowercase hexadecimal digit, as produced by `hex.EncodeToString`. -/
def hexDigit (n : Nat) : Char :=
  if n < 10 then Char.ofNat (48 + n) else Char.ofNat (87 + n)

/-- The two lowercase hex characters `hex.EncodeToString` emits for one
byte. -/
def byteToHex (b : Nat) : List Char :=
  [hexDigit (b % 256 / 16), hexDigit (b % 16)]

/-- `hex.EncodeToString(bytes)[:8]` for the four random bytes drawn by
`generateShortCode`: an 8-character lowercase-hex string. -/
def hexEncode8 (d : Nat × Nat × Nat × Nat) : String :=
  String.mk (byteToHex d.1 ++ byteToHex d.2.1 ++ byteToHex d.2.2.1 ++ byteToHex d.2.2.2)

/-- `generateShortCode` (lines 421-431): draw 4 random bytes, hex-encode,
retry while the code already exists.  The random stream is explicit; `none`
models exhausting the supplied draws (the Go loop is unbounded). -/
def generateShortCode (reg : Registry) : List (Nat × Nat × Nat × Nat) → Option String
  | [] => none
  | d :: rest =>
    let code := hexEncode8 d
    if shortCodeExists reg code then generateShortCode reg rest else some code

/- ### Go `net/url.Parse`, the fragment reachable from `validateURL`.

`validateURL` hands `url.Parse` a string and only observes whether the
returned error is nil, so the model validates and records the structural
pieces without URL-decoding them.  Strings are processed as UTF-8 byte
lists, as Go does.  IPv6 zone identifiers inside `[...]` hosts are treated
as plain host bytes (the `%25` zone split of the stdlib is not modelled). -/

/-- UTF-8 encoding of one character (Go strings are UTF-8 byte slices). -/
def charUTF8 (c : Char) : List Nat :=
  let n := c.toNat
  if n < 128 then [n]
  else if n < 2048 then [192 + n / 64, 128 + n % 64]
  else if n < 65536 then [224 + n / 4096, 128 + n / 64 % 64, 128 + n % 64]
  else [240 + n / 262144, 128 + n / 4096 % 64, 128 + n / 64 % 64, 128 + n % 64]

/-- UTF-8 bytes of a string, the representation Go indexes by. -/
def strBytes (s : String) : List Nat :=
  (s.data.map charUTF8).flatten

/-- `stringContainsCTLByte`: `b < ' ' || b == 0x7f`. -/
def isCTLByte (b : Nat) : Bool := b < 32 || b = 127

def isDigitByte (b : Nat) : Bool := 48 ≤ b && b ≤ 57

def isAlphaByte (b : Nat) : Bool := (97 ≤ b && b ≤ 122) || (65 ≤ b && b ≤ 90)

/-- `ishex` from `net/url`. -/
def isHexByte (b : Nat) : Bool :=
  isDigitByte b || (97 ≤ b && b ≤ 102) || (65 ≤ b && b ≤ 70)

/-- `unhex` from `net/url` (callers guard with `ishex`). -/
def unhexByte (b : Nat) : Nat :=
  if 48 ≤ b && b ≤ 57 then b - 48
  else if 97 ≤ b && b ≤ 102 then b - 97 + 10
  else if 65 ≤ b && b ≤ 70 then b - 65 + 10
  else 0

/-- `split(s, b, true)`: the part before the first occurrence of `b` and
the part after it (empty when `b` is absent). -/
def cutByte (b : Nat) (s : List Nat) : List Nat × List Nat :=
  (s.takeWhile (fun c => c != b), (s.dropWhile (fun c => c != b)).drop 1)

/-- `strings.HasPrefix` on byte lists. -/
def bytesStartWith : List Nat → List Nat → Bool
  | _, [] => true
  | [], _ :: _ => false
  | c :: s, p :: ps => c = p && bytesStartWith s ps

/-- Index of the last occurrence of byte `b` (`strings.LastIndex`). -/
def lastIdxAux (b : Nat) : Nat → Option Nat → List Nat → Option Nat
  | _, acc, [] => acc
  | i, acc, c :: rest => lastIdxAux b (i + 1) (if c = b then some i else acc) rest

def lastIdx (s : List Nat) (b : Nat) : Option Nat := lastIdxAux b 0 none s

/-- The percent-escape validity check of `unescape` in every mode except
`encodeHost`/`encodeZone`: each `%` must be followed by two hex digits. -/
def escapesOk : List Nat → Bool
  | [] => true
  | 37 :: a :: b :: rest => isHexByte a && isHexByte b && escapesOk rest
  | 37 :: _ => false
  | _ :: rest => escapesOk rest

/-- `shouldEscape(c, encodeHost)` is false for these bytes: sub-delims plus
`:[]<>"`, the unreserved marks, and alphanumerics. -/
def allowedHostByte (b : Nat) : Bool :=
  isAlphaByte b || isDigitByte b
    || b = 33 || b = 36 || b = 38 || b = 39 || b = 40 || b = 41 || b = 42
    || b = 43 || b = 44 || b = 59 || b = 61 || b = 58 || b = 91 || b = 93
    || b = 60 || b = 62 || b = 34
    || b = 45 || b = 95 || b = 46 || b = 126

/-- `unescape(host, encodeHost)` as a validity check: `%` needs two hex
digits and may only encode bytes ≥ 0x80 (except the literal `%25`); an
unescaped byte below 0x80 must be an allowed host byte; bytes ≥ 0x80 pass. -/
def hostBytesOk : List Nat → Bool
  | [] => true
  | 37 :: a :: b :: rest =>
    isHexByte a && isHexByte b && (!(unhexByte a < 8) || (a = 50 && b = 53))
      && hostBytesOk rest
  | 37 :: _ => false
  | c :: rest => (if c < 128 then allowedHostByte c else true) && hostBytesOk rest

/-- `validOptionalPort`: empty, or `':'` followed by digits only. -/
def validOptionalPort (colonPort : List Nat) : Bool :=
  match colonPort with
  | [] => true
  | 58 :: digits => digits.all isDigitByte
  | _ => false

/-- `validUserinfo`: RFC 3986 userinfo bytes. -/
def validUserinfoByte (b : Nat) : Bool :=
  isAlphaByte b || isDigitByte b
    || b = 45 || b = 46 || b = 95 || b = 58 || b = 126 || b = 33 || b = 36
    || b = 38 || b = 39 || b = 40 || b = 41 || b = 42 || b = 43 || b = 44
    || b = 59 || b = 61 || b = 37 || b = 64

/-- `parseHost`: bracketed hosts need a closing `]`, any port suffix must be
numeric, and the whole host must pass `unescape(host, encodeHost)`. -/
def parseHost (host : List Nat) : Except String (List Nat) :=
  if bytesStartWith host [91] then
    match lastIdx host 93 with
    | none => .error "missing close bracket in host"
    | some i =>
      if validOptionalPort (host.drop (i + 1)) then
        if hostBytesOk host then .ok host else .error "invalid host"
      else .error "invalid port after host"
  else
    match lastIdx host 58 with
    | none => if hostBytesOk host then .ok host else .error "invalid host"
    | some i =>
      if validOptionalPort (host.drop i) then
        if hostBytesOk host then .ok host else .error "invalid host"
      else .error "invalid port after host"

/-- `parseAuthority`: split the userinfo off at the last `@`, parse the
host first (as the stdlib does), then validate the userinfo bytes and
their escapes. -/
def parseAuthority (authority : List Nat) : Except String (List Nat) :=
  match lastIdx authority 64 with
  | none => parseHost authority
  | some i => do
    let host ← parseHost (authority.drop (i + 1))
    let userinfo := authority.take i
    if !userinfo.all validUserinfoByte then
      throw "invalid userinfo"
    if !escapesOk userinfo then
      throw "invalid escape in userinfo"
    return host

/-- `getScheme`: scheme letters, then digits/`+`/`-`/`.` (not first), up to
a `:`; a leading `:` is an error; anything else means no scheme at all. -/
def getSchemeAux (orig : List Nat) (acc : List Nat) (first : Bool) :
    List Nat → Except String (List Nat × List Nat)
  | [] => .ok ([], orig)
  | c :: rest =>
    if isAlphaByte c then getSchemeAux orig (c :: acc) false rest
    else if isDigitByte c || c = 43 || c = 45 || c = 46 then
      if first then .ok ([], orig) else getSchemeAux orig (c :: acc) false rest
    else if c = 58 then
      if first then .error "missing protocol scheme"
      else .ok (acc.reverse, rest)
    else .ok ([], orig)

def getScheme (rawURL : List Nat) : Except String (List Nat × List Nat) :=
  getSchemeAux rawURL [] true rawURL

/-- The result of `url.Parse`, restricted to the structural fields the
model tracks (all as raw bytes; `opq` is the stdlib's `Opaque`). -/
structure GoURL where
  scheme : List Nat
  opq : List Nat
  host : List Nat
  path : List Nat
  rawQuery : List Nat
  frag : List Nat
  deriving Repr, DecidableEq

/-- `parse(rawURL, viaRequest=false)` from `net/url` on the pre-fragment
part: control-byte check, scheme split, query split, the opaque shortcut,
authority parsing when the rest starts with `//`, then the path escape
check of `setPath`. -/
def goParseCore (u : List Nat) : Except String GoURL := do
  if u.any isCTLByte then
    throw "invalid control character in URL"
  let (scheme, rest0) ← getScheme u
  let (rest1, rquery) := cutByte 63 rest0
  if !bytesStartWith rest1 [47] then
    if scheme ≠ [] then
      return { scheme := scheme, opq := rest1, host := [], path := [],
               rawQuery := rquery, frag := [] }
    let (seg, _) := cutByte 47 rest1
    if seg.contains 58 then
      throw "first path segment in URL cannot contain colon"
  let hasAuthority :=
    (scheme ≠ [] || !bytesStartWith rest1 [47, 47, 47]) && bytesStartWith rest1 [47, 47]
  let (host, rest2) ←
    if hasAuthority then do
      let afterSlashes := rest1.drop 2
      let authority := afterSlashes.takeWhile (fun c => c != 47)
      let h ← parseAuthority authority
      pure (h, afterSlashes.dropWhile (fun c => c != 47))
    else
      pure (([] : List Nat), rest1)
  if !escapesOk rest2 then
    throw "invalid URL escape"
  return { scheme := scheme, opq := [], host := host, path := rest2,
           rawQuery := rquery, frag := [] }

/-- `url.Parse(rawURL)`: cut the fragment at the first `#`, parse the rest,
then validate the fragment's escapes (`setFragment`). -/
def goURLParse (s : String) : Except String GoURL := do
  let bytes := strBytes s
  let (u, frag) := cutByte 35 bytes
  let url ← goParseCore u
  if !escapesOk frag then
    throw "invalid URL escape"
  return { url with frag := frag }

/- ### URL validation (`validateURL`, `url_service.go` lines 386-402) -/

/-- Errors of `validateURL`, one per `fmt.Errorf` in the source. -/
inductive URLErr where
  | emptyURL
  | malformedURL
  deriving Repr, DecidableEq

/-- The Go error message of each `URLErr`. -/
def urlErrMessage : URLErr → String
  | .emptyURL => "URL cannot be empty"
  | .malformedURL => "invalid URL format"

/-- The protocol test of line 392: `strings.HasPrefix(rawURL, "http://")
|| strings.HasPrefix(rawURL, "https://")` (Go compares bytes). -/
def hasProtocol (s : String) : Bool :=
  bytesStartWith (strBytes s) (strBytes "http://")
    || bytesStartWith (strBytes s) (strBytes "https://")

/-- The string `validateURL` actually parses: the raw URL with `https://`
prepended when the protocol is missing.  In the source this assignment
only updates the local parameter `rawURL`; the caller's string is
untouched. -/
def normalizeURL (s : String) : String :=
  if hasProtocol s then s else "https://" ++ s

/-- `validateURL` (lines 386-402): reject the empty string, prefix
`https://` when no protocol is present, then succeed exactly when
`url.Parse` returns a nil error.  The parsed URL itself is discarded. -/
def validateURL (rawURL : String) : Option URLErr :=
  if rawURL = "" then some .emptyURL
  else
    match goURLParse (normalizeURL rawURL) with
    | .error _ => some .malformedURL
    | .ok _ => none

/- ### The registry operations (`url_service.go`) -/

/-- Errors of `CreateShortURL`; the source wraps the validation errors in
`fmt.Errorf("invalid URL: %v", ...)` / `("invalid shortcode: %v", ...)` and
reports a collision as `"shortcode already exists"`. -/
inductive CreateErr where
  | invalidURL (e : URLErr)
  | invalidShortCode (e : CodeErr)
  | codeCollision
  deriving Repr, DecidableEq

/-- Effective validity (lines 266-269): `req.Validity`, replaced by 30 when
it is ≤ 0 (absent JSON fields decode to 0). -/
def effectiveValidity (v : Int) : Int :=
  if v ≤ 0 then 30 else v

/-- The record built at lines 292-300: `createdAt = now`,
`expiresAt = now.Add(time.Duration(validity) * time.Minute)`, zero clicks,
empty history. -/
def buildRecord (url : String) (code : String) (validity : Int) (now : Time) : ShortURL :=
  { shortCode := code
    originalURL := url
    createdAt := now
    expiresAt := now + validityDuration validity
    clickCount := 0
    clickHistory := [] }

/-- The response built at lines 309-312 (the `Expiry` kept as a time
value). -/
def buildResponse (code : String) (expiresAt : Time) : CreateShortURLResponse :=
  { shortLink := "http://localhost:3000/" ++ code, expiry := expiresAt }

/-- Lines 274-289 of `CreateShortURL`: use the generator when no custom
code is supplied (the empty string, Go's zero value, means absent);
otherwise validate the custom code and reject a collision.  `none` is the
generator exhausting its draws, `Except.error` a Go error return. -/
def pickCode (reg : Registry) (shortCode : String)
    (draws : List (Nat × Nat × Nat × Nat)) : Option (Except CreateErr String) :=
  if shortCode = "" then
    match generateShortCode reg draws with
    | none => none
    | some c => some (.ok c)
  else
    match validateShortCode shortCode with
    | some e => some (.error (.invalidShortCode e))
    | none =>
      if shortCodeExists reg shortCode then some (.error .codeCollision)
      else some (.ok shortCode)

/-- `CreateShortURL` (lines 256-313).  `draws` feeds `generateShortCode`
when no custom code is supplied; the outer `none` models the generator
never finding a fresh code within the supplied draws (in Go the loop would
keep drawing).  An `Except.error` result is a nil-record Go return, so the
registry is unchanged; success returns the response together with the
registry after the insert of line 304. -/
def createShortURL (reg : Registry) (req : CreateShortURLRequest) (now : Time)
    (draws : List (Nat × Nat × Nat × Nat)) :
    Option (Except CreateErr (CreateShortURLResponse × Registry)) :=
  match validateURL req.url with
  | some e => some (.error (.invalidURL e))
  | none =>
    match pickCode reg req.shortCode draws with
    | none => none
    | some (.error e) => some (.error e)
    | some (.ok code) =>
      let record := buildRecord req.url code (effectiveValidity req.validity) now
      some (.ok (buildResponse code record.expiresAt, regInsert reg code record))

/-- Errors of `GetOriginalURL`. -/
inductive ResolveErr where
  | notFound
  | expired
  deriving Repr, DecidableEq

/-- The Go error message of each `ResolveErr`. -/
def resolveErrMessage : ResolveErr → String
  | .notFound => "shortcode not found"
  | .expired => "shortcode expired"

/-- `GetOriginalURL` (lines 316-335): read-locked lookup, `NotFound` when
absent, `Expired` when `time.Now().After(ExpiresAt)` (strictly after),
otherwise the stored `OriginalURL`.  The function only reads the map: it
returns no registry because it never produces a new one. -/
def getOriginalURL (reg : Registry) (code : String) (now : Time) :
    Except ResolveErr String :=
  match regFind reg code with
  | none => .error .notFound
  | some u => if now > u.expiresAt then .error .expired else .ok u.originalURL

/-- `RecordClick` (lines 338-362): under one write-lock critical section,
fail with `"shortcode not found"` when the code is absent, otherwise append
one `Click` and increment `ClickCount`.  There is no expiration check. -/
def recordClick (reg : Registry) (code : String) (source location : String)
    (now : Time) : Except Unit Registry :=
  match regFind reg code with
  | none => .error ()
  | some u =>
    let u' := { u with
      clickCount := u.clickCount + 1
      clickHistory := u.clickHistory ++ [{ timestamp := now, source := source,
                                           location := location }] }
    .ok (regInsert reg code u')

/-- `GetStats` (lines 365-383): read-locked lookup, `"shortcode not
found"` when absent, otherwise a snapshot of the record's current state.
No expiration check, no mutation. -/
def getStats (reg : Registry) (code : String) : Except Unit ShortURLStats :=
  match regFind reg code with
  | none => .error ()
  | some u =>
    .ok { totalClicks := u.clickCount, createdAt := u.createdAt,
          expiresAt := u.expiresAt, clicks := u.clickHistory }

/- ### Operation sequences, for the registry-wide invariants -/

/-- One mutating call against the shared registry. -/
inductive Op where
  | create (req : CreateShortURLRequest) (now : Time)
      (draws : List (Nat × Nat × Nat × Nat))
  | click (code : String) (source location : String) (now : Time)

/-- Run one operation, keeping the old registry when the call fails (a Go
error return leaves the map untouched). -/
def execOp (reg : Registry) : Op → Registry
  | .create req now draws =>
    match createShortURL reg req now draws with
    | some (.ok (_, reg')) => reg'
    | _ => reg
  | .click code source location now =>
    match recordClick reg code source location now with
    | .ok reg' => reg'
    | .error _ => reg

/-- Run a sequence of operations from a starting registry. -/
def execOps (reg : Registry) : List Op → Registry
  | [] => reg
  | op :: rest => execOps (execOp reg op) rest

/-- Apply a list of `RecordClick` calls to one code, failing if any call
fails. -/
def applyClicks (reg : Registry) (code : String) :
    List (Time × String × String) → Option Registry
  | [] => some reg
  | (t, src, loc) :: rest =>
    match recordClick reg code src loc t with
    | .error _ => none
    | .ok reg' => applyClicks reg' code rest

/-- The `Click` value `RecordClick` appends for one `(time, source,
location)` triple. -/
def mkClick (c : Time × String × String) : Click :=
  { timestamp := c.1, source := c.2.1, location := c.2.2 }

/-- A lowercase hexadecimal character, the alphabet of
`hex.EncodeToString`. -/
def isLowerHexChar (c : Char) : Bool :=
  (48 ≤ c.toNat && c.toNat ≤ 57) || (97 ≤ c.toNat && c.toNat ≤ 102)

/-! ## Helper lemmas about the registry -/

theorem regFind_regErase_ne (reg : Registry) (k k' : String) (h : k ≠ k') :
    regFind (regErase reg k) k' = regFind reg k' := by
  induction reg with
  | nil => rfl
  | cons p rest ih =>
    obtain ⟨a, v⟩ := p
    by_cases hak : a = k
    · subst hak
      simp [regErase, regFind, h, ih]
    · simp only [regErase, if_neg hak, regFind]
      by_cases hak' : a = k'
      · simp [hak']
      · simp [hak', ih]

theorem regFind_regInsert_self (reg : Registry) (k : String) (v : ShortURL) :
    regFind (regInsert reg k v) k = some v := by
  simp [regInsert, regFind]

theorem regFind_regInsert_ne (reg : Registry) (k k' : String) (v : ShortURL)
    (h : k ≠ k') : regFind (regInsert reg k v) k' = regFind reg k' := by
  simp only [regInsert, regFind, if_neg h]
  exact regFind_regErase_ne reg k k' h

/-! ## Inversion lemmas for `CreateShortURL` -/

theorem pickCode_ok {reg : Registry} {sc : String}
    {draws : List (Nat × Nat × Nat × Nat)} {code : String}
    (h : pickCode reg sc draws = some (.ok code)) :
    (sc = "" ∧ generateShortCode reg draws = some code) ∨
    (sc = code ∧ sc ≠ "" ∧ validateShortCode sc = none ∧
      shortCodeExists reg sc = false) := by
  unfold pickCode at h
  by_cases hsc : sc = ""
  · rw [if_pos hsc] at h
    cases hg : generateShortCode reg draws with
    | none => rw [hg] at h; exact absurd h (by simp)
    | some c =>
      rw [hg] at h
      simp only [Option.some.injEq, Except.ok.injEq] at h
      subst h
      exact .inl ⟨hsc, rfl⟩
  · rw [if_neg hsc] at h
    cases hv : validateShortCode sc with
    | some e => rw [hv] at h; exact absurd h (by simp)
    | none =>
      rw [hv] at h
      by_cases he : shortCodeExists reg sc
      · rw [if_pos he] at h; exact absurd h (by simp)
      · rw [if_neg he] at h
        simp only [Option.some.injEq, Except.ok.injEq] at h
        exact .inr ⟨h, hsc, rfl, by simpa using he⟩

theorem createShortURL_ok {reg : Registry} {req : CreateShortURLRequest}
    {now : Time} {draws : List (Nat × Nat × Nat × Nat)}
    {resp : CreateShortURLResponse} {reg' : Registry}
    (h : createShortURL reg req now draws = some (.ok (resp, reg'))) :
    validateURL req.url = none ∧
    ∃ code,
      resp = buildResponse code
        (now + validityDuration (effectiveValidity req.validity)) ∧
      reg' = regInsert reg code
        (buildRecord req.url code (effectiveValidity req.validity) now) ∧
      ((req.shortCode = "" ∧ generateShortCode reg draws = some code) ∨
       (req.shortCode = code ∧ req.shortCode ≠ "" ∧
        validateShortCode req.shortCode = none ∧
        shortCodeExists reg req.shortCode = false)) := by
  unfold createShortURL at h
  cases hv : validateURL req.url with
  | some e => rw [hv] at h; exact absurd h (by simp)
  | none =>
    rw [hv] at h
    refine ⟨rfl, ?_⟩
    cases hp : pickCode reg req.shortCode draws with
    | none => rw [hp] at h; exact absurd h (by simp)
    | some r =>
      rw [hp] at h
      cases r with
      | error e => exact absurd h (by simp)
      | ok code =>
        simp only [Option.some.injEq, Except.ok.injEq, Prod.mk.injEq] at h
        exact ⟨code, h.1.symm, h.2.symm, pickCode_ok hp⟩

/-! ## Claim theorems -/

/-- C2: `GetOriginalURL` fails with NotFound when the code is absent from
the mapping; when the code is present and `now` is strictly after
`expiresAt` it fails with Expired — and since the function only reads the
map (in the embedding it returns no registry at all) the record stays in
the mapping unchanged, nothing is purged and no click is recorded; when
present and not expired it returns the stored `originalURL`. -/
theorem getOriginalURL_cases (reg : Registry) (code : String) (now : Time) :
    (regFind reg code = none → getOriginalURL reg code now = .error .notFound) ∧
    (∀ u, regFind reg code = some u → now > u.expiresAt →
      getOriginalURL reg code now = .error .expired) ∧
    (∀ u, regFind reg code = some u → ¬now > u.expiresAt →
      getOriginalURL reg code now = .ok u.originalURL) :=
  ⟨fun h => by simp [getOriginalURL, h],
   fun u hu hexp => by simp [getOriginalURL, hu, hexp],
   fun u hu hexp => by simp [getOriginalURL, hu, hexp]⟩

/-- C2 witness: the three branches at concrete inputs (the record expiring
at 3600000000000 ns is expired at 3600000000001 ns but not at the boundary
itself). -/
theorem getOriginalURL_cases_witness :
    getOriginalURL [] "miss" 0 = .error .notFound ∧
    getOriginalURL [("codeabcd", buildRecord "https://a.com" "codeabcd" 60 0)]
      "codeabcd" 3600000000001 = .error .expired ∧
    getOriginalURL [("codeabcd", buildRecord "https://a.com" "codeabcd" 60 0)]
      "codeabcd" 3600000000000 = .ok "https://a.com" :=
  ⟨(getOriginalURL_cases [] "miss" 0).1 rfl,
   (getOriginalURL_cases [("codeabcd", buildRecord "https://a.com" "codeabcd" 60 0)]
       "codeabcd" 3600000000001).2.1 (buildRecord "https://a.com" "codeabcd" 60 0)
     rfl (by decide),
   (getOriginalURL_cases [("codeabcd", buildRecord "https://a.com" "codeabcd" 60 0)]
       "codeabcd" 3600000000000).2.2 (buildRecord "https://a.com" "codeabcd" 60 0)
     rfl (by decide)⟩

/-- C3: `RecordClick` on a present code succeeds with no expiration check
(there is no hypothesis relating `now` to `expiresAt`), storing exactly one
new Click with the call's timestamp, source and location appended to the
history and `clickCount` incremented by one, as one update of that single
entry — every other key reads unchanged; on an absent code it fails with
NotFound and returns no new registry, mutating nothing. -/
theorem recordClick_cases (reg : Registry) (code source location : String)
    (now : Time) :
    (regFind reg code = none → recordClick reg code source location now = .error ()) ∧
    (∀ u, regFind reg code = some u →
      ∃ reg', recordClick reg code source location now = .ok reg' ∧
        regFind reg' code =
          some { u with clickCount := u.clickCount + 1,
                        clickHistory := u.clickHistory ++ [⟨now, source, location⟩] } ∧
        ∀ k, k ≠ code → regFind reg' k = regFind reg k) := by
  constructor
  · intro h
    simp [recordClick, h]
  · intro u hu
    refine ⟨regInsert reg code
        { u with clickCount := u.clickCount + 1,
                 clickHistory := u.clickHistory ++ [⟨now, source, location⟩] },
      by simp [recordClick, hu], regFind_regInsert_self _ _ _, ?_⟩
    intro k hk
    exact regFind_regInsert_ne _ _ _ _ fun he => hk he.symm

/-- C3 witness: a click is recorded at time 4000000000000 on a record that
expired at 3600000000000 (no expiration check), and the absent branch
fails. -/
theorem recordClick_cases_witness :
    recordClick [] "miss" "direct" "unknown" 0 = .error () ∧
    ∃ reg', recordClick [("codeabcd", buildRecord "https://a.com" "codeabcd" 60 0)]
        "codeabcd" "direct" "unknown" 4000000000000 = .ok reg' ∧
      regFind reg' "codeabcd" =
        some { buildRecord "https://a.com" "codeabcd" 60 0 with
                 clickCount := (buildRecord "https://a.com" "codeabcd" 60 0).clickCount + 1,
                 clickHistory := (buildRecord "https://a.com" "codeabcd" 60 0).clickHistory
                   ++ [⟨4000000000000, "direct", "unknown"⟩] } ∧
      ∀ k, k ≠ "codeabcd" →
        regFind reg' k =
          regFind [("codeabcd", buildRecord "https://a.com" "codeabcd" 60 0)] k :=
  ⟨(recordClick_cases [] "miss" "direct" "unknown" 0).1 rfl,
   (recordClick_cases [("codeabcd", buildRecord "https://a.com" "codeabcd" 60 0)]
       "codeabcd" "direct" "unknown" 4000000000000).2
     (buildRecord "https://a.com" "codeabcd" 60 0) rfl⟩

/-- C6: `GetStats` fails with NotFound exactly when the code is absent; on
a present code it returns the snapshot of the record's current state with
no expiration check (no clock appears at all) and performs no mutation (it
returns no registry); and immediately after any successful create the new
code's stats report zero clicks, the creation time and the computed
expiry. -/
theorem getStats_spec (reg : Registry) (code : String) :
    (getStats reg code = .error () ↔ regFind reg code = none) ∧
    (∀ u, regFind reg code = some u →
      getStats reg code =
        .ok { totalClicks := u.clickCount
              createdAt := u.createdAt
              expiresAt := u.expiresAt
              clicks := u.clickHistory }) ∧
    (∀ req now draws resp reg',
      createShortURL reg req now draws = some (.ok (resp, reg')) →
      ∃ code', resp.shortLink = "http://localhost:3000/" ++ code' ∧
        getStats reg' code' =
          .ok { totalClicks := 0
                createdAt := now
                expiresAt := now + validityDuration (effectiveValidity req.validity)
                clicks := [] }) := by
  refine ⟨⟨?_, ?_⟩, ?_, ?_⟩
  · intro h
    cases hf : regFind reg code with
    | none => rfl
    | some u =>
      simp only [getStats, hf] at h
      exact absurd h (by simp)
  · intro h
    simp [getStats, h]
  · intro u hu
    simp [getStats, hu]
  · intro req now draws resp reg' h
    obtain ⟨hv, code', hresp, hreg, _⟩ := createShortURL_ok h
    refine ⟨code', by rw [hresp]; rfl, ?_⟩
    rw [hreg]
    simp [getStats, regFind_regInsert_self, buildRecord]

/-- C6 witness: stats of a missing code fail; stats of a present record
snapshot it independently of any clock; a fresh create reports zero
clicks. -/
theorem getStats_spec_witness :
    (getStats [] "nonexistent" = .error () ↔ regFind [] "nonexistent" = none) ∧
    getStats [("codeabcd", buildRecord "https://a.com" "codeabcd" 60 0)] "codeabcd"
      = .ok { totalClicks := (buildRecord "https://a.com" "codeabcd" 60 0).clickCount
              createdAt := (buildRecord "https://a.com" "codeabcd" 60 0).createdAt
              expiresAt := (buildRecord "https://a.com" "codeabcd" 60 0).expiresAt
              clicks := (buildRecord "https://a.com" "codeabcd" 60 0).clickHistory } ∧
    ∃ code', (buildResponse "codeabcd"
        (0 + validityDuration (effectiveValidity 60))).shortLink
        = "http://localhost:3000/" ++ code' ∧
      getStats [("codeabcd", buildRecord "https://a.com" "codeabcd" 60 0)] code'
        = .ok { totalClicks := 0
                createdAt := 0
                expiresAt := 0 + validityDuration (effectiveValidity 60)
                clicks := [] } :=
  ⟨(getStats_spec [] "nonexistent").1,
   (getStats_spec [("codeabcd", buildRecord "https://a.com" "codeabcd" 60 0)]
     "codeabcd").2.1 (buildRecord "https://a.com" "codeabcd" 60 0) rfl,
   (getStats_spec [] "codeabcd").2.2 ⟨"https://a.com", 60, "codeabcd"⟩ 0 []
     (buildResponse "codeabcd" (0 + validityDuration (effectiveValidity 60)))
     [("codeabcd", buildRecord "https://a.com" "codeabcd" 60 0)] rfl⟩

/-! ## Hex-encoding and generator lemmas -/

theorem hexDigit_isLowerHex {n : Nat} (h : n < 16) :
    isLowerHexChar (hexDigit n) = true := by
  interval_cases n <;> decide

theorem byteToHex_chars (b : Nat) :
    ∀ c ∈ byteToHex b, isLowerHexChar c = true := by
  intro c hc
  have h1 : b % 256 / 16 < 16 := by
    have hb : b % 256 < 256 := Nat.mod_lt _ (by norm_num)
    omega
  have h2 : b % 16 < 16 := Nat.mod_lt _ (by norm_num)
  simp only [byteToHex, List.mem_cons, List.not_mem_nil, or_false] at hc
  rcases hc with h | h <;> subst h
  · exact hexDigit_isLowerHex h1
  · exact hexDigit_isLowerHex h2

theorem hexEncode8_length (d : Nat × Nat × Nat × Nat) :
    (hexEncode8 d).length = 8 := rfl

theorem hexEncode8_chars (d : Nat × Nat × Nat × Nat) :
    ∀ c ∈ (hexEncode8 d).data, isLowerHexChar c = true := by
  intro c hc
  simp only [hexEncode8, String.data, List.mem_append] at hc
  rcases hc with ((h | h) | h) | h <;> exact byteToHex_chars _ _ h

theorem generateShortCode_fresh (reg : Registry) :
    ∀ (draws : List (Nat × Nat × Nat × Nat)) (code : String),
      generateShortCode reg draws = some code →
      shortCodeExists reg code = false ∧ ∃ d ∈ draws, code = hexEncode8 d := by
  intro draws
  induction draws with
  | nil =>
    intro code h
    exact absurd h (by simp [generateShortCode])
  | cons d rest ih =>
    intro code h
    simp only [generateShortCode] at h
    by_cases he : shortCodeExists reg (hexEncode8 d) = true
    · rw [if_pos he] at h
      obtain ⟨h1, d', hd', he'⟩ := ih code h
      exact ⟨h1, d', List.mem_cons_of_mem _ hd', he'⟩
    · rw [if_neg he] at h
      cases h
      exact ⟨by simpa using he, d, List.mem_cons_self _ _, rfl⟩

/-- C10: in `CreateShortURL` an empty `ShortCode` field (Go's zero value
for an absent JSON field) is treated as "no custom code": it is never
passed to `validateShortCode` (which would reject the empty string with
BadLength) and instead `generateShortCode` hex-encodes 4 random bytes into
an 8-character lowercase-hex code, retrying until the code is absent at
generation time, and the record is inserted under that generated code. -/
theorem create_generated_code_spec :
    validateShortCode "" = some .badLength ∧
    (∀ reg draws code, generateShortCode reg draws = some code →
      code.length = 8 ∧ (∀ c ∈ code.data, isLowerHexChar c = true) ∧
      shortCodeExists reg code = false ∧ ∃ d ∈ draws, code = hexEncode8 d) ∧
    (∀ reg (req : CreateShortURLRequest) now draws code, req.shortCode = "" →
      validateURL req.url = none → generateShortCode reg draws = some code →
      createShortURL reg req now draws = some (.ok
        (buildResponse code (now + validityDuration (effectiveValidity req.validity)),
         regInsert reg code
           (buildRecord req.url code (effectiveValidity req.validity) now)))) := by
  refine ⟨rfl, ?_, ?_⟩
  · intro reg draws code h
    obtain ⟨h1, d, hd, he⟩ := generateShortCode_fresh reg draws code h
    subst he
    exact ⟨hexEncode8_length d, hexEncode8_chars d, h1, d, hd, rfl⟩
  · intro reg req now draws code hsc hv hg
    simp only [createShortURL, hv, pickCode, hsc, if_pos, hg]
    rfl

/-- C10 witness: a create with empty shortcode and one random draw
(0, 255, 16, 171) generates "00ff10ab" and inserts the record under it. -/
theorem create_generated_code_spec_witness :
    validateShortCode "" = some .badLength ∧
    ("00ff10ab".length = 8 ∧ (∀ c ∈ "00ff10ab".data, isLowerHexChar c = true) ∧
      shortCodeExists [] "00ff10ab" = false ∧
      ∃ d ∈ [((0 : Nat), (255 : Nat), (16 : Nat), (171 : Nat))],
        "00ff10ab" = hexEncode8 d) ∧
    createShortURL [] ⟨"example.com", 60, ""⟩ 0 [(0, 255, 16, 171)] = some (.ok
      (buildResponse "00ff10ab" (0 + validityDuration (effectiveValidity 60)),
       regInsert [] "00ff10ab"
         (buildRecord "example.com" "00ff10ab" (effectiveValidity 60) 0))) :=
  ⟨create_generated_code_spec.1,
   create_generated_code_spec.2.1 [] [(0, 255, 16, 171)] "00ff10ab" rfl,
   create_generated_code_spec.2.2 [] ⟨"example.com", 60, ""⟩ 0 [(0, 255, 16, 171)]
     "00ff10ab" rfl rfl rfl⟩

/-- C9: `validateShortCode` fails with BadLength whenever the length (Go
counts bytes) is outside [4,20]; within bounds it fails with
NonAlphanumeric exactly when some character falls outside [a-zA-Z0-9] and
accepts otherwise (the length check runs first, as in the source); and a
create whose custom code fails validation returns the wrapped error and no
registry, so no record is inserted. -/
theorem validateShortCode_spec (code : String) :
    (code.utf8ByteSize < 4 ∨ 20 < code.utf8ByteSize →
      validateShortCode code = some .badLength) ∧
    (4 ≤ code.utf8ByteSize → code.utf8ByteSize ≤ 20 →
      ((∃ c ∈ code.data, ¬isAlphaNumChar c) →
        validateShortCode code = some .nonAlphanumeric) ∧
      ((∀ c ∈ code.data, isAlphaNumChar c) → validateShortCode code = none)) ∧
    (∀ reg (req : CreateShortURLRequest) now draws e, req.shortCode = code →
      validateURL req.url = none → code ≠ "" →
      validateShortCode code = some e →
      createShortURL reg req now draws = some (.error (.invalidShortCode e))) := by
  refine ⟨?_, ?_, ?_⟩
  · intro h
    have hc : (code.utf8ByteSize < 4 || 20 < code.utf8ByteSize) = true := by
      rcases h with h | h <;> simp [h]
    simp [validateShortCode, hc]
  · intro h4 h20
    have hc : (code.utf8ByteSize < 4 || 20 < code.utf8ByteSize) = false := by
      simp only [Bool.or_eq_false_iff, decide_eq_false_iff_not]
      omega
    constructor
    · intro ⟨c, hc', hnc⟩
      have hall : code.data.all isAlphaNumChar = false := by
        rw [← Bool.not_eq_true, List.all_eq_true]
        push_neg
        exact ⟨c, hc', by simpa using hnc⟩
      simp [validateShortCode, hc, hall]
    · intro hall
      have : code.data.all isAlphaNumChar = true := List.all_eq_true.2 hall
      simp [validateShortCode, hc, this]
  · intro reg req now draws e hsc hv hne hvc
    subst hsc
    simp only [createShortURL, hv, pickCode, if_neg hne, hvc]

/-- C9 witness: "abc" (length 3) is BadLength, "abc#1234" is
NonAlphanumeric, "codeabcd" is accepted, and the create of the spec's
scenario (url "b.com", shortcode "abc") fails with the wrapped BadLength
error and yields no registry. -/
theorem validateShortCode_spec_witness :
    validateShortCode "abc" = some .badLength ∧
    validateShortCode "abc#1234" = some .nonAlphanumeric ∧
    validateShortCode "codeabcd" = none ∧
    createShortURL [] ⟨"b.com", 60, "abc"⟩ 0 []
      = some (.error (.invalidShortCode .badLength)) :=
  ⟨(validateShortCode_spec "abc").1 (by decide),
   ((validateShortCode_spec "abc#1234").2.1 (by decide) (by decide)).1
     ⟨'#', by decide, by decide⟩,
   ((validateShortCode_spec "codeabcd").2.1 (by decide) (by decide)).2
     (by decide),
   (validateShortCode_spec "abc").2.2 [] ⟨"b.com", 60, "abc"⟩ 0 [] .badLength
     rfl rfl (by decide) ((validateShortCode_spec "abc").1 (by decide))⟩

/-! ## Click sequences -/

theorem applyClicks_spec (code : String) :
    ∀ (cs : List (Time × String × String)) (reg : Registry) (u : ShortURL),
      regFind reg code = some u →
      ∃ reg', applyClicks reg code cs = some reg' ∧
        regFind reg' code =
          some { u with clickCount := u.clickCount + cs.length,
                        clickHistory := u.clickHistory ++ cs.map mkClick } := by
  intro cs
  induction cs with
  | nil =>
    intro reg u hu
    refine ⟨reg, rfl, ?_⟩
    rw [hu]
    simp
  | cons c rest ih =>
    obtain ⟨t, src, loc⟩ := c
    intro reg u hu
    obtain ⟨reg', h1, h2⟩ := ih (regInsert reg code
        { u with clickCount := u.clickCount + 1,
                 clickHistory := u.clickHistory ++ [⟨t, src, loc⟩] })
      { u with clickCount := u.clickCount + 1,
               clickHistory := u.clickHistory ++ [⟨t, src, loc⟩] }
      (regFind_regInsert_self _ _ _)
    refine ⟨reg', ?_, ?_⟩
    · simp only [applyClicks]
      rw [show recordClick reg code src loc t = .ok (regInsert reg code
          { u with clickCount := u.clickCount + 1,
                   clickHistory := u.clickHistory ++ [⟨t, src, loc⟩] }) from by
        simp [recordClick, hu]]
      exact h1
    · rw [h2]
      congr 2
      · simp only [List.length_cons]
        push_cast
        ring
      · simp [mkClick]

/-- C5: after every sequence of create and recordClick operations from the
empty registry, every record satisfies clickCount = length clickHistory;
and n recordClick calls on a freshly created code (clickCount 0, empty
history) all succeed and leave stats reporting totalClicks = n with the n
clicks stored in call order. -/
theorem clickCount_matches_history :
    (∀ ops k u, regFind (execOps [] ops) k = some u →
      u.clickCount = (u.clickHistory.length : Int)) ∧
    (∀ reg code u cs, regFind reg code = some u → u.clickCount = 0 →
      u.clickHistory = [] →
      ∃ reg', applyClicks reg code cs = some reg' ∧
        getStats reg' code =
          .ok { totalClicks := (cs.length : Int)
                createdAt := u.createdAt
                expiresAt := u.expiresAt
                clicks := cs.map mkClick }) := by
  constructor
  · have key : ∀ (ops : List Op) (reg : Registry),
        (∀ k u, regFind reg k = some u → u.clickCount = (u.clickHistory.length : Int)) →
        ∀ k u, regFind (execOps reg ops) k = some u →
          u.clickCount = (u.clickHistory.length : Int) := by
      intro ops
      induction ops with
      | nil => intro reg h; exact h
      | cons op rest ih =>
        intro reg h
        refine ih (execOp reg op) ?_
        cases op with
        | create req now draws =>
          simp only [execOp]
          cases hc : createShortURL reg req now draws with
          | none => exact h
          | some r =>
            cases r with
            | error e => exact h
            | ok p =>
              obtain ⟨resp, reg'⟩ := p
              obtain ⟨-, code, -, hreg, -⟩ := createShortURL_ok hc
              subst hreg
              intro k u hk
              by_cases hkc : code = k
              · subst hkc
                rw [regFind_regInsert_self] at hk
                cases hk
                simp [buildRecord]
              · rw [regFind_regInsert_ne _ _ _ _ hkc] at hk
                exact h k u hk
        | click ccode src loc now =>
          simp only [execOp]
          cases hf : regFind reg ccode with
          | none => simp only [recordClick, hf]; exact h
          | some u0 =>
            simp only [recordClick, hf]
            intro k u hk
            by_cases hkc : ccode = k
            · subst hkc
              rw [regFind_regInsert_self] at hk
              cases hk
              have hu0 := h _ _ hf
              simp only [List.length_append, List.length_singleton]
              push_cast
              omega
            · rw [regFind_regInsert_ne _ _ _ _ hkc] at hk
              exact h k u hk
    intro ops
    exact key ops [] (by intro k u h; simp [regFind] at h)
  · intro reg code u cs hu hcnt hhist
    obtain ⟨reg', h1, h2⟩ := applyClicks_spec code cs reg u hu
    refine ⟨reg', h1, ?_⟩
    rw [getStats, h2, hcnt, hhist]
    simp

/-- C5 witness: a create followed by one click yields a record with
clickCount 1 and one stored click; and on a fresh record two clicks in a
row give stats totalClicks = 2 with both clicks in call order. -/
theorem clickCount_matches_history_witness :
    ({ shortCode := "codeabcd", originalURL := "https://a.com", createdAt := 0,
       expiresAt := 3600000000000, clickCount := 1,
       clickHistory := [⟨5, "direct", "unknown"⟩] } : ShortURL).clickCount =
      ((({ shortCode := "codeabcd", originalURL := "https://a.com", createdAt := 0,
           expiresAt := 3600000000000, clickCount := 1,
           clickHistory := [⟨5, "direct", "unknown"⟩] } : ShortURL).clickHistory.length : Int)) ∧
    ∃ reg', applyClicks [("codeabcd", buildRecord "https://a.com" "codeabcd" 60 0)]
        "codeabcd" [(5, "a", "x"), (6, "b", "y")] = some reg' ∧
      getStats reg' "codeabcd" =
        .ok { totalClicks := (([((5 : Int), "a", "x"), (6, "b", "y")].length : Nat) : Int)
              createdAt := (buildRecord "https://a.com" "codeabcd" 60 0).createdAt
              expiresAt := (buildRecord "https://a.com" "codeabcd" 60 0).expiresAt
              clicks := [((5 : Int), "a", "x"), (6, "b", "y")].map mkClick } :=
  ⟨clickCount_matches_history.1
     [.create ⟨"https://a.com", 60, "codeabcd"⟩ 0 [], .click "codeabcd" "direct" "unknown" 5]
     "codeabcd" _ rfl,
   clickCount_matches_history.2 [("codeabcd", buildRecord "https://a.com" "codeabcd" 60 0)]
     "codeabcd" (buildRecord "https://a.com" "codeabcd" 60 0)
     [(5, "a", "x"), (6, "b", "y")] rfl rfl rfl⟩

/-! ## Arithmetic facts about the 64-bit duration -/

theorem int64Wrap_eq_self {n : Int} (h0 : 0 ≤ n) (h1 : n < 2 ^ 63) :
    int64Wrap n = n := by
  unfold int64Wrap
  rw [Int.emod_eq_of_lt (by omega) (by omega)]
  omega

theorem effectiveValidity_pos (v : Int) : 0 < effectiveValidity v := by
  unfold effectiveValidity
  split <;> omega

/-- C7 (amended): for every successful create the effective validity is the
given validityMinutes when positive and 30 when it is ≤ 0 (the Go zero
value of an absent field); the new record has clickCount 0, empty history,
createdAt = now and expiresAt = now plus the Duration product
validity·minute computed in Go's signed 64-bit Duration type; whenever that
product does not overflow int64 (validity ≤ 153722867 minutes) it equals
validity minutes exactly and then expiresAt > createdAt holds strictly;
the response carries the code inside the short link and exactly this
expiry.  The unamended "expiresAt > createdAt always" fails for overflowing
validities — see the counterexample theorem. -/
theorem create_record_fields (reg : Registry) (req : CreateShortURLRequest)
    (now : Time) (draws : List (Nat × Nat × Nat × Nat))
    (resp : CreateShortURLResponse) (reg' : Registry)
    (h : createShortURL reg req now draws = some (.ok (resp, reg'))) :
    (0 < req.validity → effectiveValidity req.validity = req.validity) ∧
    (req.validity ≤ 0 → effectiveValidity req.validity = 30) ∧
    0 < effectiveValidity req.validity ∧
    ∃ code,
      resp.shortLink = "http://localhost:3000/" ++ code ∧
      resp.expiry = now + validityDuration (effectiveValidity req.validity) ∧
      regFind reg' code =
        some { shortCode := code
               originalURL := req.url
               createdAt := now
               expiresAt := now + validityDuration (effectiveValidity req.validity)
               clickCount := 0
               clickHistory := [] } ∧
      (effectiveValidity req.validity * minuteNs < 2 ^ 63 →
        validityDuration (effectiveValidity req.validity)
            = effectiveValidity req.validity * minuteNs ∧
        now < now + validityDuration (effectiveValidity req.validity)) := by
  obtain ⟨hv, code, hresp, hreg, -⟩ := createShortURL_ok h
  refine ⟨?_, ?_, effectiveValidity_pos _, code, ?_, ?_, ?_, ?_⟩
  · intro hp
    unfold effectiveValidity
    rw [if_neg (by omega)]
  · intro hp
    unfold effectiveValidity
    rw [if_pos hp]
  · rw [hresp]; rfl
  · rw [hresp]; rfl
  · rw [hreg, regFind_regInsert_self]
    rfl
  · intro hov
    have h0 : 0 ≤ effectiveValidity req.validity * minuteNs :=
      mul_nonneg (le_of_lt (effectiveValidity_pos _)) (by norm_num [minuteNs])
    have heq : validityDuration (effectiveValidity req.validity)
        = effectiveValidity req.validity * minuteNs := by
      unfold validityDuration
      exact int64Wrap_eq_self h0 hov
    refine ⟨heq, ?_⟩
    have hpos : 0 < validityDuration (effectiveValidity req.validity) := by
      rw [heq]
      exact mul_pos (effectiveValidity_pos _) (by norm_num [minuteNs])
    exact lt_add_of_pos_right now hpos

/-- C7 witness: the amended statement at a concrete successful create
(url "https://a.com", validity 60, custom code "codeabcd", now = 0). -/
theorem create_record_fields_witness :
    ((0 : Int) < 60 → effectiveValidity 60 = 60) ∧
    ((60 : Int) ≤ 0 → effectiveValidity 60 = 30) ∧
    (0 : Int) < effectiveValidity 60 ∧
    ∃ code,
      (buildResponse "codeabcd" (0 + validityDuration (effectiveValidity 60))).shortLink
        = "http://localhost:3000/" ++ code ∧
      (buildResponse "codeabcd" (0 + validityDuration (effectiveValidity 60))).expiry
        = 0 + validityDuration (effectiveValidity 60) ∧
      regFind [("codeabcd", buildRecord "https://a.com" "codeabcd" (effectiveValidity 60) 0)]
          code =
        some { shortCode := code
               originalURL := "https://a.com"
               createdAt := 0
               expiresAt := 0 + validityDuration (effectiveValidity 60)
               clickCount := 0
               clickHistory := [] } ∧
      (effectiveValidity 60 * minuteNs < 2 ^ 63 →
        validityDuration (effectiveValidity 60) = effectiveValidity 60 * minuteNs ∧
        (0 : Int) < 0 + validityDuration (effectiveValidity 60)) :=
  create_record_fields [] ⟨"https://a.com", 60, "codeabcd"⟩ 0 []
    (buildResponse "codeabcd" (0 + validityDuration (effectiveValidity 60)))
    [("codeabcd", buildRecord "https://a.com" "codeabcd" (effectiveValidity 60) 0)] rfl

/-- C7 counterexample to the claim as stated: the create with validity
2^53 minutes succeeds (it is a positive integer, so no default
substitution), yet the stored expiresAt equals createdAt — the product
2^53 · 60000000000 = 29296875 · 2^64 wraps to exactly zero in the 64-bit
Duration type — so neither "expiresAt = createdAt + validity minutes" nor
"expiresAt > createdAt strictly" holds for this successful create. -/
theorem create_expiry_overflow_counterexample :
    createShortURL [] ⟨"https://a.com", 2 ^ 53, "codeabcd"⟩ 0 [] =
      some (.ok (buildResponse "codeabcd" 0,
        [("codeabcd", buildRecord "https://a.com" "codeabcd" (2 ^ 53) 0)])) ∧
    (buildRecord "https://a.com" "codeabcd" (2 ^ 53) 0).createdAt = 0 ∧
    (buildRecord "https://a.com" "codeabcd" (2 ^ 53) 0).expiresAt = 0 ∧
    (0 : Int) + 2 ^ 53 * minuteNs ≠ 0 :=
  ⟨rfl, rfl, by decide, by decide⟩

/-- C8 counterexample to the "scheme and host present" reading: the input
"https://" already carries the protocol prefix, `url.Parse` accepts it with
an empty host (there is no host check anywhere in `validateURL`), and the
create path treats such a URL as valid. -/
theorem validateURL_accepts_empty_host :
    validateURL "https://" = none ∧
    goURLParse (normalizeURL "https://") =
      .ok { scheme := [104, 116, 116, 112, 115], opq := [], host := [],
            path := [], rawQuery := [], frag := [] } :=
  ⟨rfl, rfl⟩

/-- C8 (amended): `validateURL` fails with EmptyURL exactly on the empty
string; every other input lacking an http:// or https:// prefix is parsed
after prepending https://; it fails with MalformedURL exactly when Go's
`url.Parse` errors on the normalized string, and accepts exactly when it
does not — with no requirement that a host be present (the unamended
claim fails on hostless inputs such as "https://", see the counterexample
theorem). -/
theorem validateURL_spec (rawURL : String) :
    (rawURL = "" → validateURL rawURL = some .emptyURL) ∧
    (rawURL ≠ "" → hasProtocol rawURL = false →
      normalizeURL rawURL = "https://" ++ rawURL) ∧
    (rawURL ≠ "" →
      ((∃ u, goURLParse (normalizeURL rawURL) = .ok u) →
        validateURL rawURL = none) ∧
      ((∃ e, goURLParse (normalizeURL rawURL) = .error e) →
        validateURL rawURL = some .malformedURL)) := by
  refine ⟨?_, ?_, ?_⟩
  · intro h
    simp [validateURL, h]
  · intro h hp
    unfold normalizeURL
    rw [if_neg (by simp [hp])]
  · intro h
    constructor
    · intro ⟨u, hu⟩
      simp [validateURL, h, hu]
    · intro ⟨e, he⟩
      simp [validateURL, h, he]

/-- C8 witness: the amended statement applied at "example.com" — nonempty,
no protocol, normalized to "https://example.com", which parses, so the
input is accepted. -/
theorem validateURL_spec_witness :
    normalizeURL "example.com" = "https://" ++ "example.com" ∧
    validateURL "example.com" = none :=
  ⟨(validateURL_spec "example.com").2.1 (by decide) rfl,
   ((validateURL_spec "example.com").2.2 (by decide)).1
     ⟨{ scheme := [104, 116, 116, 112, 115], opq := [],
        host := strBytes "example.com", path := [], rawQuery := [], frag := [] },
      rfl⟩⟩

/-- C1: the round-trip claim fails in the source.  `validateURL` assigns
the protocol-prefixed string only to its local by-value parameter (line
393) and returns just an error, and `CreateShortURL` stores `req.URL`
itself (line 295).  So the create of raw "example.com" succeeds but the
stored originalURL — and what resolve then returns — is the raw
"example.com", not the normalized "https://example.com" that validateURL
parsed and the spec says is stored. -/
theorem create_stores_raw_url_bug :
    createShortURL [] ⟨"example.com", 60, "codeabcd"⟩ 0 [] =
      some (.ok (buildResponse "codeabcd" 3600000000000,
        [("codeabcd", buildRecord "example.com" "codeabcd" 60 0)])) ∧
    (buildRecord "example.com" "codeabcd" 60 0).originalURL = "example.com" ∧
    getOriginalURL [("codeabcd", buildRecord "example.com" "codeabcd" 60 0)]
      "codeabcd" 0 = .ok "example.com" ∧
    normalizeURL "example.com" = "https://example.com" ∧
    ("example.com" : String) ≠ "https://example.com" :=
  ⟨rfl, rfl, rfl, rfl, by decide⟩

/-- C4: in the source the existence check and the insert are two separate
critical sections — `shortCodeExists` takes and releases the read lock
(lines 435-439) and the insert takes the write lock on its own (lines
303-305) — so the claim's "checked and inserted under the same lock
acquisition" does not hold.  In the interleaving where two creates with
custom code "abcd" both run their existence check before either insert,
both checks see the code absent, neither returns CodeCollision, both
creates succeed, and the second insert (line 304) silently replaces the
first create's record.  For contrast, the final conjunct shows the
sequentialized behaviour the claim describes: checking against the
registry that already holds the first record does fail with
CodeCollision. -/
theorem create_custom_code_check_insert_race :
    validateURL "https://a.com" = none ∧
    validateURL "https://b.com" = none ∧
    validateShortCode "abcd" = none ∧
    shortCodeExists [] "abcd" = false ∧
    regFind (regInsert (regInsert [] "abcd" (buildRecord "https://a.com" "abcd" 60 7))
        "abcd" (buildRecord "https://b.com" "abcd" 60 9)) "abcd"
      = some (buildRecord "https://b.com" "abcd" 60 9) ∧
    buildRecord "https://a.com" "abcd" 60 7 ≠ buildRecord "https://b.com" "abcd" 60 9 ∧
    createShortURL (regInsert [] "abcd" (buildRecord "https://a.com" "abcd" 60 7))
        ⟨"https://b.com", 60, "abcd"⟩ 9 [] = some (.error .codeCollision) :=
  ⟨rfl, rfl, rfl, rfl, rfl, by decide, rfl⟩

end TrimURL
